import Mathlib

/-!
Shallow embedding of the SnackaCaptureWindows capture-and-normalization
pipeline (AudioCapturer.cpp, DisplayCapturer.cpp, WindowCapturer.cpp,
ColorConverter.cpp) and proofs about it.

Modelling conventions:
* The `double` computations that decide the resampled output frame count are
  modelled faithfully: `fl64` below is IEEE binary64 rounding
  (round-to-nearest, ties-to-even) of an exact rational, and each `double`
  operation of the source is one `fl64` application.  The `float`/`double`
  arithmetic inside the per-sample pipeline is modelled by exact rationals:
  the claims about it (channel equality, clamp bounds) are rounding-robust —
  they hold for every value the floating computation could produce.
* Machine integers are modelled by `ℕ`/`ℤ`; where a `UINT32` subtraction can
  wrap it is written explicitly with `% 2 ^ 32` (see `sub32`).
* `static_cast` from a floating value to an integer type truncates toward
  zero; that is `ratTrunc` below.
* Reads past the end of a buffer (which the C++ never performs on the inputs
  the theorems quantify over) are modelled by `List.getD` with default `0`.
-/

namespace Snacka

/-- Truncation of a rational toward zero: the semantics of a C++
`static_cast` from a floating-point value to an integer type. -/
def ratTrunc (q : ℚ) : ℤ := Int.tdiv q.num q.den

/-- `UINT32` subtraction with wrap-around, as in `numFrames - 1` /
`numFrames - 2` where `numFrames` has type `UINT32` in `AudioCapturer.cpp`. -/
def sub32 (a b : ℕ) : ℕ := (a + 2 ^ 32 - b) % 2 ^ 32

/-- `std::clamp(sample, -1.0f, 1.0f)` from `AudioCapturer::NormalizeAudio`. -/
def clampUnit (q : ℚ) : ℚ := if q < -1 then -1 else if 1 < q then 1 else q

/-- `static_cast<int16_t>(sample * 32767.0f)` applied after `clampUnit`. -/
def scaleToInt16 (q : ℚ) : ℤ := ratTrunc (clampUnit q * 32767)

/-- For a nonnegative rational, truncation toward zero is the floor. -/
theorem ratTrunc_eq_floor (q : ℚ) (h : 0 ≤ q) : ratTrunc q = ⌊q⌋ := by
  rw [Rat.floor_def, ratTrunc, Int.tdiv_eq_ediv (Rat.num_nonneg.mpr h) (by positivity)]

/-- Evaluation helper: `ratTrunc q = n` once `n ≤ q < n + 1` for a natural `n`. -/
theorem ratTrunc_eq_ofNat (q : ℚ) (n : ℕ) (h1 : (n : ℚ) ≤ q) (h2 : q < n + 1) :
    ratTrunc q = n := by
  rw [ratTrunc_eq_floor q (le_trans (by positivity) h1)]
  rw [Int.floor_eq_iff]
  constructor
  · exact_mod_cast h1
  · push_cast
    exact h2

/-!
## IEEE binary64 model

The output frame count of the resampler depends on genuine `double` rounding
(the spec's two count formulas differ in evaluation order), so those
operations are modelled exactly: `fl64 q` is the IEEE binary64 value nearest
to the rational `q` (round-to-nearest, ties-to-even), for the normal range —
every value arising here lies far from subnormals and overflow. -/

/-- Round to the nearest integer, ties to even: the rounding of a scaled
significand in IEEE round-to-nearest-even mode. -/
def roundHalfEven (x : ℚ) : ℤ :=
  if x - ⌊x⌋ < 1 / 2 then ⌊x⌋
  else if 1 / 2 < x - ⌊x⌋ then ⌊x⌋ + 1
  else if ⌊x⌋ % 2 = 0 then ⌊x⌋ else ⌊x⌋ + 1

/-- The binade exponent of a positive rational: the unique `e` with
`2 ^ e ≤ q < 2 ^ (e + 1)`, located from the bit lengths of numerator and
denominator. -/
def qexp (q : ℚ) : ℤ :=
  if q < 2 ^ ((Nat.log 2 q.num.toNat : ℤ) - (Nat.log 2 q.den : ℤ))
  then (Nat.log 2 q.num.toNat : ℤ) - (Nat.log 2 q.den : ℤ) - 1
  else (Nat.log 2 q.num.toNat : ℤ) - (Nat.log 2 q.den : ℤ)

/-- IEEE binary64 rounding of a nonnegative rational (round-to-nearest,
ties-to-even), valid on the normal range: scale into the 53-bit significand,
round, scale back. -/
def fl64 (q : ℚ) : ℚ :=
  if 0 < q then
    (roundHalfEven (q * 2 ^ ((52 : ℤ) - qexp q)) : ℚ) * 2 ^ (qexp q - (52 : ℤ))
  else 0

/-!
## Audio normalization (`AudioCapturer::NormalizeAudio`, lines 243-345)

The native buffer handed over by WASAPI is read frame by frame.  The branch
taken on each frame is decided by `m_isFloat`/`m_bitsPerSample`; we embed the
four supported layouts (and the fall-through that leaves both channels at the
initialisation value `0.0f`) as constructors of `NativeBuffer`.  Float samples
are represented by their exact rational values; 24-bit samples by their raw
bytes, exactly as the source reassembles them.
-/

/-- The native audio data, by sample layout.  `f32` carries the exact values
of the IEEE floats; `i16`/`i32` the stored integers; `i24` the raw bytes,
three per sample. `unsupported` is the fall-through where no branch of the
conversion matches and left/right keep their `0.0f` initialisers. -/
inductive NativeBuffer where
  | f32 (samples : List ℚ)
  | i16 (samples : List ℤ)
  | i32 (samples : List ℤ)
  | i24 (bytes : List ℕ)
  | unsupported
deriving DecidableEq

/-- Reinterpretation of an assembled 32-bit pattern as a signed `int32_t`,
used by the 24-bit branch `(frame[2] << 24) | (frame[1] << 16) | (frame[0] << 8)`. -/
def asInt32 (n : ℕ) : ℤ :=
  if n % 2 ^ 32 < 2 ^ 31 then (n % 2 ^ 32 : ℕ) else (n % 2 ^ 32 : ℕ) - 2 ^ 32

/-- The sign-extended 32-bit value the 24-bit branch builds from the three
bytes at `off`, `off+1`, `off+2`. -/
def int24At (bytes : List ℕ) (off : ℕ) : ℤ :=
  asInt32 (bytes.getD (off + 2) 0 * 2 ^ 24 + bytes.getD (off + 1) 0 * 2 ^ 16 +
    bytes.getD off 0 * 2 ^ 8)

/-- One iteration of the conversion loop (`NormalizeAudio` lines 251-293):
read the left channel of frame `i`, and the right channel when
`m_channels >= 2`, else duplicate the left.  Returns the stereo float pair
written to `m_resampleBuffer[2 i]` / `m_resampleBuffer[2 i + 1]`. -/
def readStereoFrame (channels : ℕ) (buf : NativeBuffer) (i : ℕ) : ℚ × ℚ :=
  match buf with
  | .f32 s =>
      let left := s.getD (i * channels) 0
      (left, if 2 ≤ channels then s.getD (i * channels + 1) 0 else left)
  | .i16 s =>
      let left := (s.getD (i * channels) 0 : ℚ) / 32768
      (left, if 2 ≤ channels then (s.getD (i * channels + 1) 0 : ℚ) / 32768 else left)
  | .i32 s =>
      let left := (s.getD (i * channels) 0 : ℚ) / 2147483648
      (left, if 2 ≤ channels then (s.getD (i * channels + 1) 0 : ℚ) / 2147483648 else left)
  | .i24 b =>
      let off := i * (3 * channels)
      let left := (int24At b off : ℚ) / 2147483648
      (left, if 2 ≤ channels then (int24At b (off + 3) : ℚ) / 2147483648 else left)
  | .unsupported => (0, 0)

/-- `m_resampleBuffer` as a list of stereo pairs: the float conversion of the
first `numFrames` native frames. -/
def stereoFloatFrames (channels : ℕ) (buf : NativeBuffer) (numFrames : ℕ) :
    List (ℚ × ℚ) :=
  (List.range numFrames).map (readStereoFrame channels buf)

/-- `double ratio = 48000.0 / m_sampleRate` (line 301): one correctly rounded
`double` division of exactly represented operands. -/
def ratio64 (sampleRate : ℕ) : ℚ := fl64 ((48000 : ℚ) / sampleRate)

/-- Output frame count of `NormalizeAudio` (lines 296-303): `numFrames` when
the native rate is 48 kHz, otherwise
`static_cast<size_t>(numFrames * ratio)` — the rounded `double` product of
the exactly converted `numFrames` with `ratio`, truncated toward zero. -/
def normalizeOutputFrames (numFrames sampleRate : ℕ) : ℕ :=
  if sampleRate = 48000 then numFrames
  else (ratTrunc (fl64 ((numFrames : ℚ) * ratio64 sampleRate))).toNat

/-- Output frame count of the silent-buffer path (`CaptureLoop` lines 201-208):
`numFrames`, overwritten by `static_cast<size_t>(numFrames * 48000.0 / m_sampleRate)`
when the native rate differs from 48 kHz — left to right: the rounded
`double` product `numFrames * 48000.0`, then the rounded division, then
truncation. -/
def silentOutputFrames (numFrames sampleRate : ℕ) : ℕ :=
  if sampleRate ≠ 48000 then
    (ratTrunc (fl64 (fl64 ((numFrames : ℚ) * 48000) / sampleRate))).toNat
  else numFrames

/-- `double ratio = static_cast<double>(numFrames - 1) / (outputFrames - 1)`
(line 316).  `numFrames` is a `UINT32`, hence `sub32`; the value is only read
by loop iterations, of which there are none when `outputFrames = 0`. -/
def interpStep (numFrames outputFrames : ℕ) : ℚ :=
  (sub32 numFrames 1 : ℚ) / ((outputFrames - 1 : ℕ) : ℚ)

/-- `double srcPos = i * ratio` (line 318). -/
def srcPosAt (numFrames outputFrames i : ℕ) : ℚ :=
  (i : ℚ) * interpStep numFrames outputFrames

/-- `size_t srcIndex = static_cast<size_t>(srcPos)` (line 319), before the clamp. -/
def srcRawAt (numFrames outputFrames i : ℕ) : ℕ :=
  (ratTrunc (srcPosAt numFrames outputFrames i)).toNat

/-- `srcIndex` after the clamp of lines 323-326: when
`srcIndex >= numFrames - 1` it is reassigned `numFrames - 2`
(both subtractions in `UINT32` arithmetic). -/
def srcIndexAt (numFrames outputFrames i : ℕ) : ℕ :=
  if sub32 numFrames 1 ≤ srcRawAt numFrames outputFrames i then sub32 numFrames 2
  else srcRawAt numFrames outputFrames i

/-- `frac` after the clamp: `srcPos - srcIndex`, reassigned `1.0` when the
clamp fires. -/
def srcFracAt (numFrames outputFrames i : ℕ) : ℚ :=
  if sub32 numFrames 1 ≤ srcRawAt numFrames outputFrames i then 1
  else srcPosAt numFrames outputFrames i - (srcRawAt numFrames outputFrames i : ℚ)

/-- One iteration of the resampling loop (lines 317-343): linear blend of the
two bounding stereo float frames, clamped and scaled to `int16`. -/
def interpFrame (s : List (ℚ × ℚ)) (numFrames outputFrames i : ℕ) : ℤ × ℤ :=
  let k := srcIndexAt numFrames outputFrames i
  let f := srcFracAt numFrames outputFrames i
  let a := s.getD k (0, 0)
  let b := s.getD (k + 1) (0, 0)
  (scaleToInt16 (a.1 * (1 - f) + b.1 * f), scaleToInt16 (a.2 * (1 - f) + b.2 * f))

/-- `NormalizeAudio` as a list of output stereo pairs
(`outputBuffer[2 i]`, `outputBuffer[2 i + 1]`): direct conversion at 48 kHz,
linear-interpolation resampling otherwise. -/
def normalizeAudioPairs (channels sampleRate : ℕ) (buf : NativeBuffer)
    (numFrames : ℕ) : List (ℤ × ℤ) :=
  let s := stereoFloatFrames channels buf numFrames
  if sampleRate = 48000 then
    s.map fun p => (scaleToInt16 p.1, scaleToInt16 p.2)
  else
    let outF := normalizeOutputFrames numFrames sampleRate
    (List.range outF).map (interpFrame s numFrames outF)

/-- Interleaving of the stereo pairs: the flat `m_outputBuffer` layout. -/
def interleave (ps : List (ℤ × ℤ)) : List ℤ := ps.flatMap fun p => [p.1, p.2]

/-- The flat `m_outputBuffer` contents produced by `NormalizeAudio`. -/
def normalizeAudio (channels sampleRate : ℕ) (buf : NativeBuffer)
    (numFrames : ℕ) : List ℤ :=
  interleave (normalizeAudioPairs channels sampleRate buf numFrames)

/-- The flat `m_outputBuffer` contents produced by the silent path
(`CaptureLoop` lines 201-208): `outputFrames * 2` zero samples. -/
def silentBuffer (numFrames sampleRate : ℕ) : List ℤ :=
  List.replicate (silentOutputFrames numFrames sampleRate * 2) 0

/-!
## Audio packet assembly (`AudioCapturer::CaptureLoop`, lines 216-232)

`AudioPacketHeader` is declared in `Protocol.h`, which is not among the
provided sources; the serialization below is modelled from the spec.
-/

/-- A natural as 4 little-endian bytes. -/
def le32 (n : ℕ) : List ℕ :=
  [n % 256, n / 256 % 256, n / 2 ^ 16 % 256, n / 2 ^ 24 % 256]

/-- A natural as 8 little-endian bytes. -/
def le64 (n : ℕ) : List ℕ := le32 (n % 2 ^ 32) ++ le32 (n / 2 ^ 32)

/-- Modelled from the spec: `AudioPacketHeader` lives in `Protocol.h`, which is
missing from the sources.  Per the spec (sections 3 and 6) it consists of a
`frameCount` field of type `uint32` followed by a `timestampMs` field of type
`uint64`; we serialize both little-endian with no padding, 12 bytes total. -/
def audioPacketHeaderBytes (frameCount timestampMs : ℕ) : List ℕ :=
  le32 (frameCount % 2 ^ 32) ++ le64 (timestampMs % 2 ^ 64)

/-- An `int16_t` sample as 2 little-endian bytes of its two's-complement
representation. -/
def int16Bytes (v : ℤ) : List ℕ :=
  [(v % 2 ^ 16).toNat % 256, (v % 2 ^ 16).toNat / 256]

/-- The packet handed to the audio callback (`CaptureLoop` lines 216-231):
header with `frameCount = m_outputBuffer.size() / 2` and the tick's timestamp,
followed by the raw `int16` samples. -/
def audioPacket (samples : List ℤ) (timestampMs : ℕ) : List ℕ :=
  audioPacketHeaderBytes (samples.length / 2) timestampMs ++
    samples.flatMap int16Bytes

/-- Little-endian decoding of a byte list. -/
def decodeLE (bs : List ℕ) : ℕ := bs.foldr (fun b acc => b + 256 * acc) 0

/-- The `frameCount` field of a serialized packet. -/
def packetFrameCount (p : List ℕ) : ℕ := decodeLE (p.take 4)

/-- The `timestampMs` field of a serialized packet. -/
def packetTimestamp (p : List ℕ) : ℕ := decodeLE ((p.drop 4).take 8)

/-!
## GPU color conversion (`GpuColorConverter`, ColorConverter.cpp)

`Initialize` fixes `m_nv12Size = width * height * 3 / 2` and sizes
`m_nv12Buffer` accordingly (lines 10-14); `Convert` (lines 204-227) copies the
Y plane row by row and then the half-height interleaved UV plane out of the
mapped staging texture, whose rows are `RowPitch` bytes apart.  The mapped
texture memory is modelled as a flat byte function `src`. -/

/-- `m_nv12Size` as computed by `GpuColorConverter::Initialize` (line 13). -/
def nv12Size (width height : ℕ) : ℕ := width * height * 3 / 2

/-- The contents of `m_nv12Buffer` after `Convert`: byte `k` of the Y region
was copied from `src[y * RowPitch + x]`, byte `k` of the UV region from
`src[RowPitch * height + y * RowPitch + x]`; bytes beyond the written
region keep the zero fill `resize` gave them at `Initialize`. -/
def gpuConvertBuffer (width height rowPitch : ℕ) (src : ℕ → ℕ) : List ℕ :=
  (List.range (nv12Size width height)).map fun k =>
    if k < width * height then
      src (k / width * rowPitch + k % width)
    else if k < width * height + height / 2 * width then
      src (rowPitch * height + (k - width * height) / width * rowPitch +
        (k - width * height) % width)
    else 0

/-!
## Sub-region copy on scaling mismatch

`DisplayCapturer::AcquireNextFrame` (lines 235-241) and
`WindowCapturer::OnFrameArrived` (lines 215-221) both resolve a requested-size
mismatch by `CopySubresourceRegion` with the box
`\x7b 0, 0, 0, m_width, m_height, 1 \x7d` into `m_scaledTexture` at origin.
`copySubresourceRegion` embeds the documented semantics of that Direct3D call
for a 2-D box; textures are pixel functions of (x, y). -/

/-- A `D3D11_BOX`, fields in declaration order. -/
structure D3DBox where
  left : ℕ
  top : ℕ
  front : ℕ
  right : ℕ
  bottom : ℕ
  back : ℕ
deriving DecidableEq

/-- Documented semantics of `ID3D11DeviceContext::CopySubresourceRegion` for
a 2-D texture: the source pixels inside `box` replace the destination pixels
starting at `(dstX, dstY)`; everything else keeps the destination's content. -/
def copySubresourceRegion (dst : ℕ → ℕ → ℕ) (dstX dstY : ℕ)
    (src : ℕ → ℕ → ℕ) (box : D3DBox) : ℕ → ℕ → ℕ :=
  fun x y =>
    if dstX ≤ x ∧ x < dstX + (box.right - box.left) ∧
        dstY ≤ y ∧ y < dstY + (box.bottom - box.top) then
      src (box.left + (x - dstX)) (box.top + (y - dstY))
    else dst x y

/-- The box `\x7b 0, 0, 0, m_width, m_height, 1 \x7d` both video capturers build. -/
def cropSrcBox (width height : ℕ) : D3DBox := ⟨0, 0, 0, width, height, 1⟩

/-- The texture passed on to color conversion when `m_needsScaling` holds:
`m_scaledTexture` after the sub-region copy from the native frame. -/
def scaledFrameTexture (width height : ℕ) (scaledTex nativeTex : ℕ → ℕ → ℕ) :
    ℕ → ℕ → ℕ :=
  copySubresourceRegion scaledTex 0 0 nativeTex (cropSrcBox width height)

/-!
## Capturer lifecycle (`Start`/`Stop`) and frame acquisition

State machines embedding the control flow of `AudioCapturer::Start/Stop`
(lines 132-163), `DisplayCapturer::Start/Stop/AcquireNextFrame/ReinitializeDuplication`
(lines 131-162 and 197-263) and `WindowCapturer::Start` (lines 165-171).
`ComPtr` members are modelled by `Bool` flags (non-null or null); the worker
`std::thread` by `WorkerState`. -/

/-- The state of a capturer's worker thread object. -/
inductive WorkerState where
  | notStarted
  | joinable
  | joined
  | detached
deriving DecidableEq

/-- What a `Start` call does, beyond its state change. -/
inductive StartOutcome where
  | alreadyRunning
  | nullDeref
  | failed
  | started
deriving DecidableEq

/-- `AudioCapturer` lifecycle state: `m_running`, whether `m_audioClient` is
non-null (it is null until a successful `Initialize`), and the capture
thread. -/
structure AudioState where
  running : Bool
  hasAudioClient : Bool
  worker : WorkerState
deriving DecidableEq

/-- `AudioCapturer::Start` (lines 132-149): early-out when already running;
otherwise set `m_running`, call `m_audioClient->Start()` — a null dereference
when `Initialize` never created the client — reset `m_running` on failure,
else spawn the joinable capture thread. -/
def audioStart (s : AudioState) (clientStartOk : Bool) :
    AudioState × StartOutcome :=
  if s.running then (s, StartOutcome.alreadyRunning)
  else
    let s1 : AudioState := { s with running := true }
    if s1.hasAudioClient = false then (s1, StartOutcome.nullDeref)
    else if clientStartOk = false then
      ({ s1 with running := false }, StartOutcome.failed)
    else ({ s1 with worker := WorkerState.joinable }, StartOutcome.started)

/-- `AudioCapturer::Stop` (lines 151-163): early-out when not running;
otherwise clear `m_running`, stop the client, and join the capture thread
when it is joinable. -/
def audioStop (s : AudioState) : AudioState :=
  if s.running = false then s
  else
    let s1 : AudioState := { s with running := false }
    if s1.worker = WorkerState.joinable then
      { s1 with worker := WorkerState.joined }
    else s1

/-- `DisplayCapturer` lifecycle state: `m_running`, whether `m_output` is
non-null, and the worker thread. -/
structure DisplayState where
  running : Bool
  hasOutput : Bool
  worker : WorkerState
deriving DecidableEq

/-- `DisplayCapturer::Start` (lines 151-158): early-out when already running;
otherwise set `m_running` and spawn the capture loop on a thread that is
immediately detached (`std::thread([this] ...).detach()`). -/
def displayStart (s : DisplayState) : DisplayState :=
  if s.running then s
  else { s with running := true, worker := WorkerState.detached }

/-- `DisplayCapturer::Stop` (lines 160-162): clear `m_running`; nothing else —
in particular the detached worker thread is not (and cannot be) joined. -/
def displayStop (s : DisplayState) : DisplayState := { s with running := false }

/-- `WindowCapturer` lifecycle state: `m_running` and whether `m_session` is
non-null. -/
structure WindowState where
  running : Bool
  hasSession : Bool
deriving DecidableEq

/-- `WindowCapturer::Start` (lines 165-171): early-out when already running;
otherwise set `m_running` and call `m_session.StartCapture()` — a null
dereference when `Initialize` never created the session. -/
def windowStart (s : WindowState) : WindowState × StartOutcome :=
  if s.running then (s, StartOutcome.alreadyRunning)
  else
    let s1 : WindowState := { s with running := true }
    if s1.hasSession = false then (s1, StartOutcome.nullDeref)
    else (s1, StartOutcome.started)

/-- `DisplayCapturer::ReinitializeDuplication` (lines 131-149), called with
`m_output` possibly null (never after a successful `Initialize`, but also from
a `Start`-without-`Initialize` capture loop): `none` models the null
dereference of `m_output->DuplicateOutput`; otherwise it returns whether the
duplication handle was recreated. -/
def reinitializeDuplication (hasOutput duplicateOk : Bool) : Option Bool :=
  if hasOutput = false then none else some duplicateOk

/-- Outcome of `IDXGIOutputDuplication::AcquireNextFrame` plus the
`QueryInterface` that follows it, as the environment of one tick. -/
inductive AcquireResult where
  | ok
  | timeout
  | accessLost
  | otherFailure
deriving DecidableEq

/-- Environment of one `AcquireNextFrame` tick: whether `DuplicateOutput`
would succeed, the OS acquisition result, and whether the texture
`QueryInterface` succeeds. -/
structure AcquireEnv where
  duplicateOk : Bool
  result : AcquireResult
  queryOk : Bool
deriving DecidableEq

/-- Observable result of one `DisplayCapturer::AcquireNextFrame` call:
whether `m_duplication` is non-null afterwards, whether a frame was produced,
and how many times `ReinitializeDuplication` ran during the call. -/
structure AcquireOut where
  hasDuplication : Bool
  gotFrame : Bool
  reinitAttempts : ℕ
deriving DecidableEq

/-- The body of `AcquireNextFrame` once a duplication handle exists
(lines 204-262): timeout and other failures return no frame and keep the
handle; access-loss resets the handle and returns no frame; success yields a
frame unless the `QueryInterface` fails. -/
def acquireBody (attempts : ℕ) (env : AcquireEnv) : AcquireOut :=
  match env.result with
  | .timeout => ⟨true, false, attempts⟩
  | .accessLost => ⟨false, false, attempts⟩
  | .otherFailure => ⟨true, false, attempts⟩
  | .ok => if env.queryOk then ⟨true, true, attempts⟩ else ⟨true, false, attempts⟩

/-- `DisplayCapturer::AcquireNextFrame` (lines 197-263).  With no duplication
handle it first calls `ReinitializeDuplication` — exactly once — and returns
frameless if that fails (`none` is the null dereference of the
never-initialized `m_output`). -/
def acquireNextFrame (hasOutput hasDuplication : Bool) (env : AcquireEnv) :
    Option AcquireOut :=
  if hasDuplication = false then
    match reinitializeDuplication hasOutput env.duplicateOk with
    | none => none
    | some false => some ⟨false, false, 1⟩
    | some true => some (acquireBody 1 env)
  else some (acquireBody 0 env)

/-!
## Helper lemmas
-/

/-- Interleaving doubles the length. -/
theorem interleave_length (ps : List (ℤ × ℤ)) :
    (interleave ps).length = 2 * ps.length := by
  induction ps with
  | nil => rfl
  | cons a t ih =>
      simp only [interleave, List.flatMap_cons, List.length_append,
        List.length_cons, List.length_nil] at *
      omega

/-- The number of stereo pairs `NormalizeAudio` produces is
`normalizeOutputFrames`. -/
theorem normalizeAudioPairs_length (channels sampleRate : ℕ)
    (buf : NativeBuffer) (numFrames : ℕ) :
    (normalizeAudioPairs channels sampleRate buf numFrames).length =
      normalizeOutputFrames numFrames sampleRate := by
  unfold normalizeAudioPairs normalizeOutputFrames stereoFloatFrames
  by_cases h : sampleRate = 48000 <;> simp [h]

/-!
## Properties of the binary64 model
-/

/-- The rounded significand differs from the scaled value by at most 1/2. -/
theorem roundHalfEven_sub_le (x : ℚ) : |(roundHalfEven x : ℚ) - x| ≤ 1 / 2 := by
  have h1 : (⌊x⌋ : ℚ) ≤ x := Int.floor_le x
  have h2 : x < ⌊x⌋ + 1 := Int.lt_floor_add_one x
  unfold roundHalfEven
  split
  · next h => rw [abs_le]; constructor <;> linarith
  · next h =>
      split
      · next h' => rw [abs_le]; push_cast; constructor <;> linarith
      · next h' =>
          split <;> (rw [abs_le]; push_cast; constructor <;> linarith)

/-- Evaluation: the round of a value within [n, n + 1/2) is n. -/
theorem roundHalfEven_eq_of (x : ℚ) (n : ℤ) (h1 : (n : ℚ) ≤ x)
    (h2 : x < n + 1 / 2) : roundHalfEven x = n := by
  have hf : ⌊x⌋ = n := by
    rw [Int.floor_eq_iff]
    exact ⟨h1, by linarith⟩
  unfold roundHalfEven
  rw [hf, if_pos (by linarith)]

/-- The round never falls below the floor. -/
theorem roundHalfEven_ge_floor (x : ℚ) : ⌊x⌋ ≤ roundHalfEven x := by
  unfold roundHalfEven
  split
  · exact le_refl _
  · split
    · omega
    · split
      · exact le_refl _
      · omega

/-- The binade exponent is correct for every positive rational. -/
theorem qexp_spec (q : ℚ) (hq : 0 < q) :
    (2 : ℚ) ^ qexp q ≤ q ∧ q < 2 ^ (qexp q + 1) := by
  have hnum : (0 : ℤ) < q.num := Rat.num_pos.mpr hq
  have ha0 : q.num.toNat ≠ 0 := by omega
  have hden0 : q.den ≠ 0 := q.den_nz
  have hq_eq : q = (q.num.toNat : ℚ) / (q.den : ℚ) := by
    rw [show ((q.num.toNat : ℕ) : ℚ) = (q.num : ℚ) from by
      exact_mod_cast Int.toNat_of_nonneg hnum.le]
    exact (Rat.num_div_den q).symm
  unfold qexp
  set a := q.num.toNat with ha
  set b := q.den with hb
  set k := Nat.log 2 a with hk
  set l := Nat.log 2 b with hl
  have hbQ : (0 : ℚ) < b := by exact_mod_cast Nat.pos_of_ne_zero hden0
  have hk1 : (2 : ℚ) ^ (k : ℤ) ≤ (a : ℚ) := by
    have h2 : ((2 ^ k : ℕ) : ℚ) ≤ (a : ℚ) := by
      exact_mod_cast Nat.pow_log_le_self 2 ha0
    rwa [show ((2 ^ k : ℕ) : ℚ) = (2 : ℚ) ^ (k : ℤ) from by
      push_cast; rw [zpow_natCast]] at h2
  have hk2 : (a : ℚ) < 2 ^ ((k : ℤ) + 1) := by
    have h2 : (a : ℚ) < ((2 ^ (k + 1) : ℕ) : ℚ) := by
      exact_mod_cast Nat.lt_pow_succ_log_self (by norm_num) a
    rwa [show ((2 ^ (k + 1) : ℕ) : ℚ) = (2 : ℚ) ^ ((k : ℤ) + 1) from by
      push_cast; rw [← zpow_natCast]; push_cast; ring_nf] at h2
  have hl1 : (2 : ℚ) ^ (l : ℤ) ≤ (b : ℚ) := by
    have h2 : ((2 ^ l : ℕ) : ℚ) ≤ (b : ℚ) := by
      exact_mod_cast Nat.pow_log_le_self 2 hden0
    rwa [show ((2 ^ l : ℕ) : ℚ) = (2 : ℚ) ^ (l : ℤ) from by
      push_cast; rw [zpow_natCast]] at h2
  have hl2 : (b : ℚ) < 2 ^ ((l : ℤ) + 1) := by
    have h2 : (b : ℚ) < ((2 ^ (l + 1) : ℕ) : ℚ) := by
      exact_mod_cast Nat.lt_pow_succ_log_self (by norm_num) b
    rwa [show ((2 ^ (l + 1) : ℕ) : ℚ) = (2 : ℚ) ^ ((l : ℤ) + 1) from by
      push_cast; rw [← zpow_natCast]; push_cast; ring_nf] at h2
  have hp1 : (0 : ℚ) < (2 : ℚ) ^ (k : ℤ) := by positivity
  have hp2 : (0 : ℚ) < (2 : ℚ) ^ ((l : ℤ) + 1) := by positivity
  have hlow : (2 : ℚ) ^ ((k : ℤ) - l - 1) < q := by
    rw [hq_eq]
    have t1 : (2 : ℚ) ^ (k : ℤ) / (b : ℚ) ≤ (a : ℚ) / b :=
      (div_le_div_iff_of_pos_right hbQ).mpr hk1
    have t2 : (2 : ℚ) ^ (k : ℤ) / 2 ^ ((l : ℤ) + 1) < (2 : ℚ) ^ (k : ℤ) / b :=
      div_lt_div_of_pos_left hp1 hbQ hl2
    have t3 : (2 : ℚ) ^ ((k : ℤ) - l - 1) =
        (2 : ℚ) ^ (k : ℤ) / 2 ^ ((l : ℤ) + 1) := by
      rw [← zpow_sub₀ (by norm_num : (2 : ℚ) ≠ 0)]
      congr 1
      ring
    rw [t3]
    linarith
  have hhigh : q < 2 ^ ((k : ℤ) - l + 1) := by
    rw [hq_eq]
    have t1 : (a : ℚ) / b < (2 : ℚ) ^ ((k : ℤ) + 1) / b :=
      (div_lt_div_iff_of_pos_right hbQ).mpr hk2
    have t2 : (2 : ℚ) ^ ((k : ℤ) + 1) / b ≤ (2 : ℚ) ^ ((k : ℤ) + 1) / 2 ^ (l : ℤ) :=
      div_le_div_of_nonneg_left (by positivity) (by positivity) hl1
    have t3 : (2 : ℚ) ^ ((k : ℤ) - l + 1) =
        (2 : ℚ) ^ ((k : ℤ) + 1) / 2 ^ (l : ℤ) := by
      rw [← zpow_sub₀ (by norm_num : (2 : ℚ) ≠ 0)]
      congr 1
      ring
    rw [t3]
    linarith
  split
  · next hcond =>
      refine ⟨hlow.le, ?_⟩
      rw [show (k : ℤ) - l - 1 + 1 = (k : ℤ) - l by ring]
      exact hcond
  · next hcond =>
      exact ⟨not_lt.mp hcond, hhigh⟩

/-- The binade exponent is the unique integer bracketing the value. -/
theorem qexp_eq (q : ℚ) (e : ℤ) (hq : 0 < q) (h1 : (2 : ℚ) ^ e ≤ q)
    (h2 : q < 2 ^ (e + 1)) : qexp q = e := by
  obtain ⟨g1, g2⟩ := qexp_spec q hq
  by_contra hne
  rcases lt_or_gt_of_ne hne with hlt | hgt
  · have : (2 : ℚ) ^ (qexp q + 1) ≤ 2 ^ e :=
      zpow_le_zpow_right₀ (by norm_num) (by omega)
    linarith
  · have : (2 : ℚ) ^ (e + 1) ≤ 2 ^ qexp q :=
      zpow_le_zpow_right₀ (by norm_num) (by omega)
    linarith

/-- Evaluation workhorse: `fl64 q` from an explicit binade and significand. -/
theorem fl64_eval (q : ℚ) (e n : ℤ) (hq : 0 < q)
    (h1 : (2 : ℚ) ^ e ≤ q) (h2 : q < 2 ^ (e + 1))
    (h3 : (n : ℚ) ≤ q * 2 ^ ((52 : ℤ) - e))
    (h4 : q * 2 ^ ((52 : ℤ) - e) < n + 1 / 2) :
    fl64 q = n * 2 ^ (e - (52 : ℤ)) := by
  rw [fl64, if_pos hq, qexp_eq q e hq h1 h2, roundHalfEven_eq_of _ n h3 h4]

/-- Rounding a positive value never yields a negative one. -/
theorem fl64_nonneg (q : ℚ) : 0 ≤ fl64 q := by
  rw [fl64]
  split
  · next hq =>
      have hx : (0 : ℤ) ≤ ⌊q * 2 ^ ((52 : ℤ) - qexp q)⌋ :=
        Int.floor_nonneg.mpr (by positivity)
      have hr := roundHalfEven_ge_floor (q * 2 ^ ((52 : ℤ) - qexp q))
      have : (0 : ℚ) ≤ (roundHalfEven (q * 2 ^ ((52 : ℤ) - qexp q)) : ℚ) := by
        exact_mod_cast le_trans hx hr
      positivity
  · exact le_refl 0

/-- Half-ulp error bound: binary64 rounding keeps a positive value within a
relative error of `2 ^ (-53)`. -/
theorem fl64_err (q : ℚ) (hq : 0 < q) : |fl64 q - q| ≤ q / 2 ^ 53 := by
  obtain ⟨hlo, hhi⟩ := qexp_spec q hq
  rw [fl64, if_pos hq]
  set e := qexp q with he
  set m := roundHalfEven (q * 2 ^ ((52 : ℤ) - e)) with hm
  have hu : (0 : ℚ) < 2 ^ (e - (52 : ℤ)) := by positivity
  have hcancel : q * 2 ^ ((52 : ℤ) - e) * 2 ^ (e - (52 : ℤ)) = q := by
    rw [mul_assoc, ← zpow_add₀ (by norm_num : (2 : ℚ) ≠ 0)]
    norm_num
  have key : (m : ℚ) * 2 ^ (e - (52 : ℤ)) - q =
      ((m : ℚ) - q * 2 ^ ((52 : ℤ) - e)) * 2 ^ (e - (52 : ℤ)) := by
    rw [sub_mul, hcancel]
  rw [key, abs_mul, abs_of_pos hu]
  calc |(m : ℚ) - q * 2 ^ ((52 : ℤ) - e)| * 2 ^ (e - (52 : ℤ))
      ≤ (1 / 2) * 2 ^ (e - (52 : ℤ)) :=
        mul_le_mul_of_nonneg_right (roundHalfEven_sub_le _) hu.le
  _ = 2 ^ (e - (53 : ℤ)) := by
        rw [show (1 : ℚ) / 2 = 2 ^ (-1 : ℤ) by norm_num,
          ← zpow_add₀ (by norm_num : (2 : ℚ) ≠ 0)]
        congr 1
        ring
  _ ≤ q / 2 ^ 53 := by
        rw [show (2 : ℚ) ^ (e - (53 : ℤ)) = 2 ^ e / 2 ^ (53 : ℤ) from
          zpow_sub₀ (by norm_num) e 53,
          show (2 : ℚ) ^ (53 : ℤ) = 2 ^ (53 : ℕ) by norm_num]
        exact (div_le_div_iff_of_pos_right (by positivity)).mpr hlo

/-- Upper error bound for nonnegative inputs. -/
theorem fl64_le_sup (q : ℚ) (hq : 0 ≤ q) : fl64 q ≤ q + q / 2 ^ 53 := by
  rcases eq_or_lt_of_le hq with h | h
  · rw [← h]
    simp [fl64]
  · have herr := fl64_err q h
    rw [abs_le] at herr
    linarith [herr.2]

/-- Lower error bound for nonnegative inputs. -/
theorem fl64_ge_inf (q : ℚ) (hq : 0 ≤ q) : q - q / 2 ^ 53 ≤ fl64 q := by
  rcases eq_or_lt_of_le hq with h | h
  · rw [← h]
    simp [fl64]
  · have herr := fl64_err q h
    rw [abs_le] at herr
    linarith [herr.1]

/-!
## C1, C6, C7: lifecycle and acquisition
-/

/-- C1 counterexample: the claim states that `Stop` joins the worker thread
for every running session of the display capturer as well; but
`DisplayCapturer::Start` detaches its thread and `DisplayCapturer::Stop` only
clears the running flag, so on a running display session the worker is not
joined when `Stop` returns. -/
theorem c1_display_stop_does_not_join :
    ¬ ((displayStop ⟨true, true, WorkerState.detached⟩).running = false ∧
      (displayStop ⟨true, true, WorkerState.detached⟩).worker =
        WorkerState.joined) := by
  decide

/-- C1 (amended): the audio capturer's `Stop` clears the running flag and
joins its (joinable) worker thread; the display capturer's `Start` detaches
its worker thread and its `Stop` only clears the running flag, leaving the
worker state untouched — the join guarantee holds only for the audio
capturer. -/
theorem c1_stop_clears_flag_joins_audio_only :
    (∀ s : AudioState, s.running = true → s.worker = WorkerState.joinable →
      (audioStop s).running = false ∧
        (audioStop s).worker = WorkerState.joined) ∧
    (∀ s : DisplayState, (displayStop s).running = false ∧
      (displayStop s).worker = s.worker) ∧
    (∀ s : DisplayState, s.running = false →
      (displayStart s).worker = WorkerState.detached) := by
  refine ⟨?_, ?_, ?_⟩
  · intro s hr hw
    simp [audioStop, hr, hw]
  · intro s
    simp [displayStop]
  · intro s hr
    simp [displayStart, hr]

/-- C1 amended witness at a concrete running audio session. -/
theorem c1_stop_clears_flag_joins_audio_only_witness :
    (audioStop ⟨true, true, WorkerState.joinable⟩).running = false ∧
    (audioStop ⟨true, true, WorkerState.joinable⟩).worker =
      WorkerState.joined :=
  c1_stop_clears_flag_joins_audio_only.1 ⟨true, true, WorkerState.joinable⟩
    rfl rfl

/-- C6: `Start` without a successful `Initialize` is not rejected — evaluated
on a freshly constructed state, `AudioCapturer::Start` reaches the
`m_audioClient->Start()` call on a null interface pointer,
`WindowCapturer::Start` reaches `m_session.StartCapture()` on a null object,
and `DisplayCapturer::Start` spawns its detached capture loop whose first
`AcquireNextFrame` dereferences the null `m_output` inside
`ReinitializeDuplication`. -/
theorem c6_start_without_initialize_dereferences_null :
    (audioStart ⟨false, false, WorkerState.notStarted⟩ true).2 =
      StartOutcome.nullDeref ∧
    (windowStart ⟨false, false⟩).2 = StartOutcome.nullDeref ∧
    displayStart ⟨false, false, WorkerState.notStarted⟩ =
      ⟨true, false, WorkerState.detached⟩ ∧
    acquireNextFrame false false ⟨true, AcquireResult.timeout, true⟩ = none := by
  decide

/-- C7: on access-loss `AcquireNextFrame` resets the duplication handle,
produces no frame and performs no recreation within that tick; a call with no
handle performs exactly one `ReinitializeDuplication`; a failed recreation
returns frameless with the handle still absent; a successful recreation
followed by a successful acquisition resumes frames after that single
recreation. -/
theorem c7_access_loss_discards_then_single_reinit :
    (∀ d q, acquireNextFrame true true ⟨d, AcquireResult.accessLost, q⟩ =
      some ⟨false, false, 0⟩) ∧
    (∀ r q, acquireNextFrame true false ⟨false, r, q⟩ =
      some ⟨false, false, 1⟩) ∧
    (∀ r q, (acquireNextFrame true false ⟨true, r, q⟩).map
      AcquireOut.reinitAttempts = some 1) ∧
    acquireNextFrame true false ⟨true, AcquireResult.ok, true⟩ =
      some ⟨true, true, 1⟩ := by
  refine ⟨?_, ?_, ?_, rfl⟩
  · intro d q
    cases d <;> cases q <;> rfl
  · intro r q
    cases r <;> cases q <;> rfl
  · intro r q
    cases r <;> cases q <;> rfl

/-!
## C3: silent path and real-data path frame counts

The two paths evaluate the ratio in different orders —
`numFrames * 48000.0 / m_sampleRate` (CaptureLoop line 205) versus
`numFrames * (48000.0 / m_sampleRate)` (NormalizeAudio lines 301-302) — and
IEEE double rounding makes them disagree: at 55 frames, 44000 Hz the silent
path divides 2640000.0 by 44000 to exactly 60, while the pre-rounded ratio
`fl64 (12/11) = 4913017775313268 / 2^52` multiplied by 55 rounds to
`60 - 2^(-47)` and truncates to 59. -/

/-- The rounded `double` ratio `48000.0 / 44000` falls just below 12/11. -/
theorem ratio64_44000 :
    ratio64 44000 = 4913017775313268 / 4503599627370496 := by
  unfold ratio64
  push_cast
  rw [show (48000 : ℚ) / 44000 = 12 / 11 by norm_num,
    fl64_eval (12 / 11) 0 4913017775313268 (by norm_num) (by norm_num)
      (by norm_num) (by norm_num) (by norm_num)]
  norm_num

/-- The `double` product `55 * 48000.0` is exact. -/
theorem fl64_55_mul_48000 : fl64 ((55 : ℚ) * 48000) = 2640000 := by
  rw [show (55 : ℚ) * 48000 = 2640000 by norm_num,
    fl64_eval 2640000 21 5669356830720000 (by norm_num) (by norm_num)
      (by norm_num) (by norm_num) (by norm_num)]
  norm_num

/-- The `double` quotient `2640000.0 / 44000` is exactly 60. -/
theorem fl64_2640000_div_44000 : fl64 ((2640000 : ℚ) / 44000) = 60 := by
  rw [show (2640000 : ℚ) / 44000 = 60 by norm_num,
    fl64_eval 60 5 8444249301319680 (by norm_num) (by norm_num)
      (by norm_num) (by norm_num) (by norm_num)]
  norm_num

/-- The `double` product `55 * fl64(48000.0/44000)` rounds to `60 - 2^(-47)`. -/
theorem fl64_55_mul_ratio44000 :
    fl64 ((55 : ℚ) * (4913017775313268 / 4503599627370496)) =
      8444249301319679 / 140737488355328 := by
  rw [fl64_eval _ 5 8444249301319679 (by norm_num) (by norm_num)
      (by norm_num) (by norm_num) (by norm_num)]
  norm_num

/-- C3: the code violates the claim — at 55 native frames and native rate
44000 Hz the silent-buffer path emits 60 output frames while the real-data
path emits 59, because the silent path divides last (exactly) and the
real-data path multiplies by the pre-rounded ratio. -/
theorem c3_silent_and_real_paths_diverge :
    silentOutputFrames 55 44000 = 60 ∧ normalizeOutputFrames 55 44000 = 59 := by
  constructor
  · rw [silentOutputFrames, if_pos (by norm_num)]
    push_cast
    rw [fl64_55_mul_48000, fl64_2640000_div_44000,
      ratTrunc_eq_ofNat 60 60 (by norm_num) (by norm_num)]
    simp
  · rw [normalizeOutputFrames, if_neg (by norm_num), ratio64_44000]
    push_cast
    rw [fl64_55_mul_ratio44000,
      ratTrunc_eq_ofNat _ 59 (by norm_num) (by norm_num)]
    simp

/-!
## C9: resampling read bounds
-/

/-- C9: in the resampling loop, for `2 ≤ numFrames` (a `UINT32`), the clamped
source index never exceeds `numFrames - 2`, so both interpolation reads —
at `srcIndex` and `srcIndex + 1` — fall on valid input frames, for every
output frame count and output index. -/
theorem c9_resample_reads_stay_in_bounds :
    ∀ numFrames outputFrames i : ℕ, 2 ≤ numFrames → numFrames < 2 ^ 32 →
      srcIndexAt numFrames outputFrames i ≤ numFrames - 2 ∧
      srcIndexAt numFrames outputFrames i + 1 ≤ numFrames - 1 := by
  intro nf outF i h2 h32
  have hpow : (2 : ℕ) ^ 32 = 4294967296 := by norm_num
  have e1 : sub32 nf 1 = nf - 1 := by
    unfold sub32
    rw [hpow] at h32 ⊢
    omega
  have e2 : sub32 nf 2 = nf - 2 := by
    unfold sub32
    rw [hpow] at h32 ⊢
    omega
  unfold srcIndexAt
  rw [e1, e2]
  split
  · omega
  · next h => omega

/-- C9 witness at `numFrames = 2`, `outputFrames = 2`, output index 1. -/
theorem c9_resample_reads_stay_in_bounds_witness :
    srcIndexAt 2 2 1 ≤ 2 - 2 ∧ srcIndexAt 2 2 1 + 1 ≤ 2 - 1 :=
  c9_resample_reads_stay_in_bounds 2 2 1 (by norm_num) (by norm_num)

/-!
## C2: output frame count is truncated, not rounded
-/

/-- The `double` ratio `48000.0 / 32000` is exactly 3/2. -/
theorem ratio64_32000 : ratio64 32000 = 3 / 2 := by
  unfold ratio64
  push_cast
  rw [show (48000 : ℚ) / 32000 = 3 / 2 by norm_num,
    fl64_eval (3 / 2) 0 6755399441055744 (by norm_num) (by norm_num)
      (by norm_num) (by norm_num) (by norm_num)]
  norm_num

/-- The `double` product `1 * 1.5` is exactly 3/2. -/
theorem fl64_one_mul_three_halves : fl64 ((1 : ℚ) * (3 / 2)) = 3 / 2 := by
  rw [show (1 : ℚ) * (3 / 2) = 3 / 2 by norm_num,
    fl64_eval (3 / 2) 0 6755399441055744 (by norm_num) (by norm_num)
      (by norm_num) (by norm_num) (by norm_num)]
  norm_num

/-- C2 counterexample: at native rate 32000 Hz and 1 native frame the ratio
3/2 and the product `1 * 1.5` are exact in `double`, so the program's
`static_cast<size_t>` truncation gives 1 output frame while nearest-integer
rounding of the exact ratio gives 2. -/
theorem c2_output_frames_not_rounded :
    (normalizeAudioPairs 1 32000 (NativeBuffer.i16 [0]) 1).length ≠
      (round ((1 : ℚ) * 48000 / 32000)).toNat := by
  have hlen : (normalizeAudioPairs 1 32000 (NativeBuffer.i16 [0]) 1).length = 1 := by
    rw [normalizeAudioPairs_length, normalizeOutputFrames,
      if_neg (by norm_num), ratio64_32000]
    push_cast
    rw [fl64_one_mul_three_halves,
      ratTrunc_eq_ofNat _ 1 (by norm_num) (by norm_num)]
    rfl
  have hround : round ((1 : ℚ) * 48000 / 32000) = 2 := by
    have : ((1 : ℚ) * 48000 / 32000) = 3 / 2 := by norm_num
    rw [this, round_eq]
    norm_num
  rw [hlen, hround]
  decide

/-- The truncated, doubly rounded output frame count stays within one frame
below the truncation of the exact ratio: double rounding can lose at most
one output frame, and can never add one (the products involved stay below
`2 ^ 52`). -/
theorem truncCount_floor_bounds (numFrames sampleRate : ℕ)
    (hr : 0 < sampleRate) (hnf : numFrames < 2 ^ 32) :
    (ratTrunc (fl64 ((numFrames : ℚ) * ratio64 sampleRate))).toNat ≤
      (⌊(numFrames : ℚ) * 48000 / sampleRate⌋).toNat ∧
    (⌊(numFrames : ℚ) * 48000 / sampleRate⌋).toNat ≤
      (ratTrunc (fl64 ((numFrames : ℚ) * ratio64 sampleRate))).toNat + 1 := by
  have hrQ : (0 : ℚ) < sampleRate := by exact_mod_cast hr
  have hr1 : (1 : ℚ) ≤ sampleRate := by exact_mod_cast hr
  rcases Nat.eq_zero_or_pos numFrames with h0 | h0
  · subst h0
    have hz : ratTrunc (fl64 ((0 : ℚ) * ratio64 sampleRate)) = 0 := by
      rw [zero_mul, show fl64 0 = 0 from by simp [fl64]]
      exact_mod_cast ratTrunc_eq_ofNat 0 0 (by norm_num) (by norm_num)
    simp only [Nat.cast_zero]
    rw [hz, zero_mul, zero_div, Int.floor_zero]
    norm_num
  · simp only [ratio64]
    have hnfQ : (0 : ℚ) < (numFrames : ℚ) := by exact_mod_cast h0
    set ρ : ℚ := (48000 : ℚ) / sampleRate with hρ
    have hρpos : 0 < ρ := div_pos (by norm_num) hrQ
    set F : ℚ := fl64 ρ with hF
    have hFup : F ≤ ρ + ρ / 2 ^ 53 := fl64_le_sup ρ hρpos.le
    have hFdown : ρ - ρ / 2 ^ 53 ≤ F := fl64_ge_inf ρ hρpos.le
    have hFpos : 0 < F := by
      have h1 : 0 < ρ * (1 - 1 / 2 ^ 53) := mul_pos hρpos (by norm_num)
      have h2 : ρ * (1 - 1 / 2 ^ 53) = ρ - ρ / 2 ^ 53 := by ring
      linarith
    set x : ℚ := (numFrames : ℚ) * F with hx
    have hxpos : 0 < x := mul_pos hnfQ hFpos
    set P : ℚ := fl64 x with hP
    have hPup : P ≤ x + x / 2 ^ 53 := fl64_le_sup x hxpos.le
    have hPdown : x - x / 2 ^ 53 ≤ P := fl64_ge_inf x hxpos.le
    have hPnn : 0 ≤ P := fl64_nonneg x
    set E : ℚ := (numFrames : ℚ) * ρ with hE
    have hEpos : 0 < E := mul_pos hnfQ hρpos
    have hxup : x ≤ E + E / 2 ^ 53 := by
      have h1 : (numFrames : ℚ) * F ≤ (numFrames : ℚ) * (ρ + ρ / 2 ^ 53) :=
        mul_le_mul_of_nonneg_left hFup hnfQ.le
      have h2 : (numFrames : ℚ) * (ρ + ρ / 2 ^ 53) = E + E / 2 ^ 53 := by
        rw [hE]; ring
      rw [hx]
      linarith
    have hxdown : E - E / 2 ^ 53 ≤ x := by
      have h1 : (numFrames : ℚ) * (ρ - ρ / 2 ^ 53) ≤ (numFrames : ℚ) * F :=
        mul_le_mul_of_nonneg_left hFdown hnfQ.le
      have h2 : (numFrames : ℚ) * (ρ - ρ / 2 ^ 53) = E - E / 2 ^ 53 := by
        rw [hE]; ring
      rw [hx]
      linarith
    have hPE_up : P ≤ E + E / 2 ^ 51 := by linarith
    have hPE_down : E - E / 2 ^ 51 ≤ P := by linarith
    have hE48 : E ≤ 2 ^ 48 := by
      have h2 : E ≤ (numFrames : ℚ) * 48000 := by
        rw [hE, hρ, ← mul_div_assoc]
        exact div_le_self (by positivity) hr1
      have h3 : (numFrames : ℚ) ≤ 2 ^ 32 := by exact_mod_cast hnf.le
      have h4 : (numFrames : ℚ) * 48000 ≤ 2 ^ 32 * 48000 :=
        mul_le_mul_of_nonneg_right h3 (by norm_num)
      calc E ≤ (numFrames : ℚ) * 48000 := h2
      _ ≤ 2 ^ 32 * 48000 := h4
      _ ≤ 2 ^ 48 := by norm_num
    have hEeq : (numFrames : ℚ) * 48000 / sampleRate = E := by
      rw [hE, hρ, mul_div_assoc]
    have hNE : ((numFrames * 48000 : ℕ) : ℚ) = E * sampleRate := by
      push_cast
      rw [hE, hρ]
      field_simp
    have hfloor_le : (⌊E⌋ : ℚ) ≤ E := Int.floor_le E
    have hlt_floor : E < ⌊E⌋ + 1 := Int.lt_floor_add_one E
    have hstep : E + 1 / (sampleRate : ℚ) ≤ (⌊E⌋ : ℚ) + 1 := by
      have hlt : ((numFrames * 48000 : ℕ) : ℤ) < (sampleRate : ℤ) * (⌊E⌋ + 1) := by
        have hq2 : ((numFrames * 48000 : ℕ) : ℚ) <
            ((sampleRate : ℤ) * (⌊E⌋ + 1) : ℤ) := by
          rw [hNE]
          push_cast
          nlinarith
        exact_mod_cast hq2
      have hleQ : E * sampleRate + 1 ≤ (sampleRate : ℚ) * ((⌊E⌋ : ℚ) + 1) := by
        have : ((numFrames * 48000 : ℕ) : ℤ) + 1 ≤
            (sampleRate : ℤ) * (⌊E⌋ + 1) := hlt
        have hc : ((numFrames * 48000 : ℕ) : ℚ) + 1 ≤
            (sampleRate : ℚ) * ((⌊E⌋ : ℚ) + 1) := by exact_mod_cast this
        rw [hNE] at hc
        exact hc
      rw [show E + 1 / (sampleRate : ℚ) = (E * sampleRate + 1) / sampleRate from by
        field_simp, div_le_iff₀ hrQ]
      linarith
    have hsmall : E / 2 ^ 51 < 1 / (sampleRate : ℚ) := by
      rw [div_lt_div_iff₀ (by norm_num : (0 : ℚ) < 2 ^ 51) hrQ]
      rw [show E * (sampleRate : ℚ) = ((numFrames * 48000 : ℕ) : ℚ) from hNE.symm]
      have hNlt : ((numFrames * 48000 : ℕ) : ℚ) < 2 ^ 51 := by
        have hn : (numFrames * 48000 : ℕ) < 2 ^ 51 := by
          calc numFrames * 48000 ≤ 2 ^ 32 * 48000 :=
                Nat.mul_le_mul_right _ hnf.le
          _ < 2 ^ 51 := by norm_num
        exact_mod_cast hn
      linarith
    have hPlt : P < (⌊E⌋ : ℚ) + 1 := by linarith
    have htr : ratTrunc P = ⌊P⌋ := ratTrunc_eq_floor P hPnn
    have hfl_le : ⌊P⌋ ≤ ⌊E⌋ := by
      have hc : (⌊P⌋ : ℚ) < (⌊E⌋ : ℚ) + 1 := lt_of_le_of_lt (Int.floor_le P) hPlt
      have : ⌊P⌋ < ⌊E⌋ + 1 := by exact_mod_cast hc
      omega
    have hfl_ge : ⌊E⌋ - 1 ≤ ⌊P⌋ := by
      have hE8 : E / 2 ^ 51 ≤ 1 / 8 := by
        have hd : E / 2 ^ 51 ≤ 2 ^ 48 / 2 ^ 51 := by gcongr
        have : (2 : ℚ) ^ 48 / 2 ^ 51 = 1 / 8 := by norm_num
        linarith
      have hlow : ((⌊E⌋ : ℚ) - 1) ≤ P := by linarith
      exact Int.le_floor.mpr (by exact_mod_cast hlow)
    rw [hEeq, htr]
    omega

/-- C2 (amended): for every native rate other than 48000 (positive, with a
`UINT32` frame count), the number of output frames `NormalizeAudio` produces
is the truncation toward zero of the rounded `double` product
`numFrames * (48000.0 / sampleRate)` — not a nearest-integer rounding — and
double rounding keeps it within one frame below the exact truncation:
`⌊numFrames * 48000 / sampleRate⌋ - 1 ≤ outputFrames ≤
⌊numFrames * 48000 / sampleRate⌋`. -/
theorem c2_output_frames_truncate_double :
    ∀ channels sampleRate (buf : NativeBuffer) numFrames,
      sampleRate ≠ 48000 → 0 < sampleRate → numFrames < 2 ^ 32 →
      (normalizeAudioPairs channels sampleRate buf numFrames).length =
        (ratTrunc (fl64 ((numFrames : ℚ) * ratio64 sampleRate))).toNat ∧
      (normalizeAudioPairs channels sampleRate buf numFrames).length ≤
        (⌊(numFrames : ℚ) * 48000 / sampleRate⌋).toNat ∧
      (⌊(numFrames : ℚ) * 48000 / sampleRate⌋).toNat ≤
        (normalizeAudioPairs channels sampleRate buf numFrames).length + 1 := by
  intro channels sampleRate buf numFrames h hr hnf
  have hlen : (normalizeAudioPairs channels sampleRate buf numFrames).length =
      (ratTrunc (fl64 ((numFrames : ℚ) * ratio64 sampleRate))).toNat := by
    rw [normalizeAudioPairs_length, normalizeOutputFrames, if_neg h]
  obtain ⟨hub, hlb⟩ := truncCount_floor_bounds numFrames sampleRate hr hnf
  exact ⟨hlen, by rw [hlen]; exact hub, by rw [hlen]; exact hlb⟩

/-- C2 amended witness at the spec's scenario: 441 frames at 44100 Hz. -/
theorem c2_output_frames_truncate_double_witness :
    (normalizeAudioPairs 1 44100 (NativeBuffer.i16 [0]) 441).length =
      (ratTrunc (fl64 (((441 : ℕ) : ℚ) * ratio64 44100))).toNat ∧
    (normalizeAudioPairs 1 44100 (NativeBuffer.i16 [0]) 441).length ≤
      (⌊((441 : ℕ) : ℚ) * 48000 / ((44100 : ℕ) : ℚ)⌋).toNat ∧
    (⌊((441 : ℕ) : ℚ) * 48000 / ((44100 : ℕ) : ℚ)⌋).toNat ≤
      (normalizeAudioPairs 1 44100 (NativeBuffer.i16 [0]) 441).length + 1 :=
  c2_output_frames_truncate_double 1 44100 (NativeBuffer.i16 [0]) 441
    (by norm_num) (by norm_num) (by norm_num)

/-!
## C8: mono inputs produce left == right
-/

/-- With one channel, every branch of the conversion loop duplicates the left
sample into the right channel. -/
theorem readStereoFrame_mono (buf : NativeBuffer) (i : ℕ) :
    (readStereoFrame 1 buf i).1 = (readStereoFrame 1 buf i).2 := by
  cases buf <;> simp [readStereoFrame]

/-- Componentwise-equal pairs stay componentwise equal under `getD` with an
equal-component default. -/
theorem getD_components_eq (s : List (ℚ × ℚ))
    (H : ∀ p ∈ s, p.1 = p.2) (k : ℕ) :
    (s.getD k (0, 0)).1 = (s.getD k (0, 0)).2 := by
  rw [List.getD_eq_getElem?_getD]
  cases h : s[k]? with
  | none => simp
  | some p => simpa using H p (List.getElem?_mem h)

/-- C8: for a mono native buffer of any supported layout and any native rate,
every stereo pair `NormalizeAudio` outputs has equal left and right samples —
the left channel is duplicated before resampling and both the direct and the
interpolation path apply identical arithmetic to both channels. -/
theorem c8_mono_output_left_eq_right :
    ∀ sampleRate (buf : NativeBuffer) numFrames,
      ∀ p ∈ normalizeAudioPairs 1 sampleRate buf numFrames, p.1 = p.2 := by
  intro sampleRate buf numFrames p hp
  have hs : ∀ q ∈ stereoFloatFrames 1 buf numFrames, q.1 = q.2 := by
    intro q hq
    obtain ⟨i, _, rfl⟩ := List.mem_map.mp hq
    exact readStereoFrame_mono buf i
  simp only [normalizeAudioPairs] at hp
  split at hp
  · obtain ⟨q, hq, rfl⟩ := List.mem_map.mp hp
    simpa using congrArg scaleToInt16 (hs q hq)
  · obtain ⟨i, _, rfl⟩ := List.mem_map.mp hp
    simp only [interpFrame]
    rw [getD_components_eq _ hs, getD_components_eq _ hs]

/-- C8 witness at a concrete mono 16-bit frame. -/
theorem c8_mono_output_left_eq_right_witness :
    ((0, 0) : ℤ × ℤ) ∈ normalizeAudioPairs 1 48000 (NativeBuffer.i16 [0]) 1 ∧
    ((0, 0) : ℤ × ℤ).1 = ((0, 0) : ℤ × ℤ).2 := by
  have hmem : ((0, 0) : ℤ × ℤ) ∈
      normalizeAudioPairs 1 48000 (NativeBuffer.i16 [0]) 1 := by
    norm_num [normalizeAudioPairs, stereoFloatFrames, readStereoFrame,
      scaleToInt16, clampUnit, ratTrunc, List.range_succ]
  exact ⟨hmem,
    c8_mono_output_left_eq_right 48000 (NativeBuffer.i16 [0]) 1 (0, 0) hmem⟩

/-!
## C10: audio packet self-consistency
-/

/-- Decoding the 4-byte little-endian encoding recovers the value mod 2^32. -/
theorem decodeLE_le32 (n : ℕ) : decodeLE (le32 n) = n % 2 ^ 32 := by
  simp only [decodeLE, le32, List.foldr_cons, List.foldr_nil]
  omega

/-- Decoding the 8-byte little-endian encoding recovers the value mod 2^64. -/
theorem decodeLE_le64 (n : ℕ) : decodeLE (le64 n) = n % 2 ^ 64 := by
  simp only [decodeLE, le64, le32, List.append_eq, List.cons_append,
    List.nil_append, List.foldr_cons, List.foldr_nil]
  omega

/-- Each `int16` sample serializes to exactly 2 bytes. -/
theorem int16Bytes_flatMap_length (l : List ℤ) :
    (l.flatMap int16Bytes).length = 2 * l.length := by
  induction l with
  | nil => rfl
  | cons a t ih =>
      simp only [List.flatMap_cons, List.length_append, List.length_cons,
        int16Bytes, List.length_nil] at *
      omega

/-- C10: every packet `CaptureLoop` delivers to the audio callback is
self-consistent: its byte size is the 12-byte header plus
`frameCount * 2 * 2` payload bytes, the header's `frameCount` field is half
the number of `int16` samples in the payload, and the header's `timestampMs`
field is the timestamp argument passed alongside — both for packets built
from `NormalizeAudio` output and for packets built from the silent path. -/
theorem c10_packet_self_consistent :
    ∀ channels sampleRate (buf : NativeBuffer) numFrames timestampMs,
      timestampMs < 2 ^ 64 →
      (normalizeAudio channels sampleRate buf numFrames).length / 2 < 2 ^ 32 →
      silentOutputFrames numFrames sampleRate < 2 ^ 32 →
      ((audioPacket (normalizeAudio channels sampleRate buf numFrames)
          timestampMs).length =
        12 + ((normalizeAudio channels sampleRate buf numFrames).length / 2)
          * 2 * 2 ∧
      packetFrameCount (audioPacket
          (normalizeAudio channels sampleRate buf numFrames) timestampMs) =
        (normalizeAudio channels sampleRate buf numFrames).length / 2 ∧
      packetTimestamp (audioPacket
          (normalizeAudio channels sampleRate buf numFrames) timestampMs) =
        timestampMs) ∧
      ((audioPacket (silentBuffer numFrames sampleRate) timestampMs).length =
        12 + ((silentBuffer numFrames sampleRate).length / 2) * 2 * 2 ∧
      packetFrameCount (audioPacket (silentBuffer numFrames sampleRate)
          timestampMs) =
        (silentBuffer numFrames sampleRate).length / 2 ∧
      packetTimestamp (audioPacket (silentBuffer numFrames sampleRate)
          timestampMs) = timestampMs) := by
  intro channels sampleRate buf numFrames timestampMs hts hfc hsf
  have heven : (normalizeAudio channels sampleRate buf numFrames).length % 2
      = 0 := by
    rw [normalizeAudio, interleave_length]
    omega
  have hsilent : (silentBuffer numFrames sampleRate).length =
      silentOutputFrames numFrames sampleRate * 2 := by
    rw [silentBuffer, List.length_replicate]
  have packetFacts : ∀ samples : List ℤ, samples.length % 2 = 0 →
      samples.length / 2 < 2 ^ 32 →
      (audioPacket samples timestampMs).length =
        12 + (samples.length / 2) * 2 * 2 ∧
      packetFrameCount (audioPacket samples timestampMs) =
        samples.length / 2 ∧
      packetTimestamp (audioPacket samples timestampMs) = timestampMs := by
    intro samples hev hlt
    refine ⟨?_, ?_, ?_⟩
    · rw [audioPacket, List.length_append, int16Bytes_flatMap_length,
        audioPacketHeaderBytes, le64, le32, le32, le32]
      simp only [List.length_append, List.length_cons, List.length_nil]
      omega
    · rw [packetFrameCount, audioPacket, audioPacketHeaderBytes, le64, le32,
        le32, le32]
      simp only [List.cons_append, List.nil_append, List.take_succ_cons,
        List.take_zero]
      rw [show [(samples.length / 2 % 2 ^ 32) % 256,
        samples.length / 2 % 2 ^ 32 / 256 % 256,
        samples.length / 2 % 2 ^ 32 / 2 ^ 16 % 256,
        samples.length / 2 % 2 ^ 32 / 2 ^ 24 % 256] =
          le32 (samples.length / 2 % 2 ^ 32) from rfl, decodeLE_le32]
      omega
    · rw [packetTimestamp, audioPacket, audioPacketHeaderBytes, le64, le32,
        le32, le32]
      simp only [List.cons_append, List.nil_append, List.drop_succ_cons,
        List.drop_zero, List.take_succ_cons, List.take_zero]
      rw [show [timestampMs % 2 ^ 64 % 2 ^ 32 % 256,
        timestampMs % 2 ^ 64 % 2 ^ 32 / 256 % 256,
        timestampMs % 2 ^ 64 % 2 ^ 32 / 2 ^ 16 % 256,
        timestampMs % 2 ^ 64 % 2 ^ 32 / 2 ^ 24 % 256,
        timestampMs % 2 ^ 64 / 2 ^ 32 % 256,
        timestampMs % 2 ^ 64 / 2 ^ 32 / 256 % 256,
        timestampMs % 2 ^ 64 / 2 ^ 32 / 2 ^ 16 % 256,
        timestampMs % 2 ^ 64 / 2 ^ 32 / 2 ^ 24 % 256] =
          le64 (timestampMs % 2 ^ 64) from rfl, decodeLE_le64]
      omega
  refine ⟨packetFacts _ heven hfc, packetFacts _ ?_ ?_⟩
  · rw [hsilent]
    omega
  · rw [hsilent]
    omega

/-- C10 witness at a concrete mono 48 kHz frame with timestamp 7. -/
theorem c10_packet_self_consistent_witness :
    7 < 2 ^ 64 ∧
    (normalizeAudio 1 48000 (NativeBuffer.i16 [0]) 1).length / 2 < 2 ^ 32 ∧
    packetFrameCount (audioPacket
        (normalizeAudio 1 48000 (NativeBuffer.i16 [0]) 1) 7) =
      (normalizeAudio 1 48000 (NativeBuffer.i16 [0]) 1).length / 2 ∧
    packetTimestamp (audioPacket (silentBuffer 1 48000) 7) = 7 := by
  have h1 : (7 : ℕ) < 2 ^ 64 := by norm_num
  have h2 : (normalizeAudio 1 48000 (NativeBuffer.i16 [0]) 1).length / 2
      < 2 ^ 32 := by
    rw [normalizeAudio, interleave_length, normalizeAudioPairs_length,
      normalizeOutputFrames]
    norm_num
  have h3 : silentOutputFrames 1 48000 < 2 ^ 32 := by
    rw [silentOutputFrames]
    norm_num
  have := c10_packet_self_consistent 1 48000 (NativeBuffer.i16 [0]) 1 7 h1 h2 h3
  exact ⟨h1, h2, this.1.2.1, this.2.2.2⟩

/-!
## C4: NV12 output buffer size and layout
-/

/-- Element access into a mapped `(List.range n).map f`. -/
theorem getD_range_map (n k : ℕ) (f : ℕ → ℕ) :
    ((List.range n).map f).getD k 0 = if k < n then f k else 0 := by
  rcases Nat.lt_or_ge k n with h | h
  · rw [List.getD_eq_getElem?_getD, List.getElem?_map, List.getElem?_range h]
    simp [h]
  · rw [List.getD_eq_getElem?_getD, List.getElem?_eq_none (by simpa using h)]
    simp [Nat.not_lt.mpr h]

/-- Row recovery from a flat destination index. -/
theorem index_div (x y w : ℕ) (hx : x < w) : (y * w + x) / w = y := by
  have hw : 0 < w := by omega
  rw [Nat.add_comm, mul_comm y w, Nat.add_mul_div_left _ _ hw,
    Nat.div_eq_of_lt hx, Nat.zero_add]

/-- Column recovery from a flat destination index. -/
theorem index_mod (x y w : ℕ) (hx : x < w) : (y * w + x) % w = x := by
  rw [Nat.add_comm, Nat.add_mul_mod_self_right, Nat.mod_eq_of_lt hx]

/-- A row-bounded flat index stays inside the plane. -/
theorem index_lt_plane (x y w h : ℕ) (hx : x < w) (hy : y < h) :
    y * w + x < w * h := by
  calc y * w + x < (y + 1) * w := by
        rw [Nat.add_mul, Nat.one_mul]
        omega
  _ ≤ h * w := Nat.mul_le_mul_right w (by omega)
  _ = w * h := Nat.mul_comm h w

/-- The Y plane fits inside the NV12 buffer. -/
theorem yPlane_le_nv12Size (w h : ℕ) : w * h ≤ nv12Size w h := by
  unfold nv12Size
  generalize w * h = m
  omega

/-- The written UV region fits inside the NV12 buffer. -/
theorem uvPlane_le_nv12Size (w h : ℕ) :
    w * h + h / 2 * w ≤ nv12Size w h := by
  have huv : h / 2 * w ≤ w * h / 2 := by
    rw [Nat.le_div_iff_mul_le (by norm_num : 0 < 2)]
    calc h / 2 * w * 2 = h / 2 * 2 * w := by ring
    _ ≤ h * w := Nat.mul_le_mul_right w (Nat.div_mul_le_self h 2)
    _ = w * h := Nat.mul_comm h w
  have hsz : nv12Size w h = w * h + w * h / 2 := by
    unfold nv12Size
    generalize w * h = m
    omega
  omega

/-- C4: for a converter initialized at `width × height`, the buffer `Convert`
hands to the callback has exactly `width * height * 3 / 2` bytes — regardless
of the mapped source contents and row pitch (and hence of the input texture) —
laid out as the full-resolution Y plane followed by the half-height
interleaved UV plane read from its pitch-aligned offset. -/
theorem c4_nv12_buffer_size_and_layout :
    ∀ width height rowPitch (src : ℕ → ℕ),
      (gpuConvertBuffer width height rowPitch src).length =
        width * height * 3 / 2 ∧
      (∀ y x, y < height → x < width →
        (gpuConvertBuffer width height rowPitch src).getD (y * width + x) 0 =
          src (y * rowPitch + x)) ∧
      (∀ y x, y < height / 2 → x < width →
        (gpuConvertBuffer width height rowPitch src).getD
            (width * height + (y * width + x)) 0 =
          src (rowPitch * height + y * rowPitch + x)) := by
  intro w h pitch src
  refine ⟨by simp [gpuConvertBuffer, nv12Size], ?_, ?_⟩
  · intro y x hy hx
    have hk : y * w + x < w * h := index_lt_plane x y w h hx hy
    have hsize : y * w + x < nv12Size w h :=
      Nat.lt_of_lt_of_le hk (yPlane_le_nv12Size w h)
    rw [gpuConvertBuffer, getD_range_map, if_pos hsize, if_pos hk,
      index_div x y w hx, index_mod x y w hx]
  · intro y x hy hx
    have hk : y * w + x < h / 2 * w := by
      calc y * w + x < (y + 1) * w := by
            rw [Nat.add_mul, Nat.one_mul]
            omega
      _ ≤ h / 2 * w := Nat.mul_le_mul_right w (by omega)
    have hsize : w * h + (y * w + x) < nv12Size w h :=
      Nat.lt_of_lt_of_le (by omega) (uvPlane_le_nv12Size w h)
    have hnotY : ¬ (w * h + (y * w + x) < w * h) := by omega
    have huv : w * h + (y * w + x) < w * h + h / 2 * w := by omega
    rw [gpuConvertBuffer, getD_range_map, if_pos hsize, if_neg hnotY,
      if_pos huv, Nat.add_sub_cancel_left, index_div x y w hx,
      index_mod x y w hx]

/-- C4 witness at a 2×2 frame with row pitch 3 and the identity byte map. -/
theorem c4_nv12_buffer_size_and_layout_witness :
    (gpuConvertBuffer 2 2 3 (fun a => a)).getD (1 * 2 + 1) 0 =
      (fun a : ℕ => a) (1 * 3 + 1) ∧
    (gpuConvertBuffer 2 2 3 (fun a => a)).getD (2 * 2 + (0 * 2 + 1)) 0 =
      (fun a : ℕ => a) (3 * 2 + 0 * 3 + 1) :=
  ⟨(c4_nv12_buffer_size_and_layout 2 2 3 (fun a => a)).2.1 1 1 (by norm_num)
      (by norm_num),
    (c4_nv12_buffer_size_and_layout 2 2 3 (fun a => a)).2.2 0 1 (by norm_num)
      (by norm_num)⟩

/-!
## C5: size mismatch resolved by a top-left crop
-/

/-- C5: when the requested size differs from the native size, the texture the
capturers pass to color conversion agrees pixel-for-pixel with the native
frame at every coordinate inside the requested `width × height` — a top-left
crop, not a resampled image. -/
theorem c5_scaling_mismatch_is_topleft_crop :
    ∀ width height (scaledTex nativeTex : ℕ → ℕ → ℕ) x y,
      x < width → y < height →
      scaledFrameTexture width height scaledTex nativeTex x y =
        nativeTex x y := by
  intro w h st nt x y hx hy
  simp [scaledFrameTexture, copySubresourceRegion, cropSrcBox, hx, hy]

/-- C5 witness: a 2×2 crop of a gradient texture at pixel (1, 1). -/
theorem c5_scaling_mismatch_is_topleft_crop_witness :
    scaledFrameTexture 2 2 (fun _ _ => 0) (fun a b => 10 * a + b) 1 1 =
      (fun a b => 10 * a + b) 1 1 :=
  c5_scaling_mismatch_is_topleft_crop 2 2 (fun _ _ => 0)
    (fun a b => 10 * a + b) 1 1 (by norm_num) (by norm_num)

end Snacka
